import Mathlib

/-!
Verification of the movie-list scraper (`tempCodeRunnerFile.py`).

The program's pure core is embedded shallowly:
* `sort_entries` mirrors the Python function of the same name: reverse the two
  extracted node sequences, zip them, number the pairs from 1, then sort by
  rank or by title with Python's stable `list.sort`.
* `applyKeyword` mirrors the `--filter` handling in `main` (note that Python's
  `if args.filter:` also skips the filter for the empty string).
* `check_for_updates` mirrors the cache-file branch structure of the Python
  function, with the file system state abstracted as `Option String` (the
  cache file's content, or `none` when the file does not exist) and the write
  action made explicit.
* `save_file_csv` / `csvParseStr` model the csv output path and a reader for
  the csv dialect the writer emits (excel dialect: comma delimiter, double
  quote char, doubled-quote escaping, CRLF row terminator, minimal quoting).
* `save_file_txt` models the txt output path together with the exception
  behaviour of `except IOError` around a Latin-1 encoded write.

Python string primitives used by the code (`str.lower`, `str.strip`,
substring `in`, string comparison, stable `list.sort`, `str(int)`) are
embedded as executable Lean functions on `List Char` / `String` with the same
semantics on the data the program handles (codepoint-lexicographic comparison,
ASCII case folding, whitespace stripping).
-/

namespace Scraper

/-- One ranked item, as built by `sort_entries`:
`{"rank": rank, "title": title, "description": description}`. -/
structure Movie where
  rank : Nat
  title : String
  description : String
deriving Repr, DecidableEq

/-- ASCII lower-casing of one character, as Python's `str.lower` acts on the
ASCII range. -/
def lowerChar (c : Char) : Char :=
  if 65 ≤ c.toNat ∧ c.toNat ≤ 90 then Char.ofNat (c.toNat + 32) else c

/-- Whitespace test used by `str.strip` (ASCII whitespace). -/
def isSpaceChar (c : Char) : Bool :=
  c = ' ' || c = '\t' || c = '\n' || c = '\r' || c = '\x0b' || c = '\x0c'

/-- Python `str.strip()`: drop whitespace from both ends. -/
def pyStrip (s : String) : String :=
  String.mk (((s.data.dropWhile isSpaceChar).reverse.dropWhile isSpaceChar).reverse)

/-- Substring containment on character lists: Python's `sub in s`. -/
def hasSub (p : List Char) : List Char → Bool
  | [] => p.isPrefixOf []
  | c :: rest => p.isPrefixOf (c :: rest) || hasSub p rest

/-- The filter test in `main`: `args.filter.lower() in entry.get_text().lower()`. -/
def containsCI (text keyword : String) : Bool :=
  hasSub (keyword.data.map lowerChar) (text.data.map lowerChar)

/-- Codepoint-lexicographic `≤` on character lists: Python's string
comparison, which `list.sort(key=...)` uses on the title keys. -/
def lexLe : List Char → List Char → Bool
  | [], _ => true
  | _ :: _, [] => false
  | a :: as, b :: bs =>
    if a.toNat < b.toNat then true
    else if b.toNat < a.toNat then false
    else lexLe as bs

/-- Comparison key for `movies.sort(key=lambda x: x["title"])`. -/
def leTitle (a b : Movie) : Bool := lexLe a.title.data b.title.data

/-- Comparison key for `movies.sort(key=lambda x: x["rank"])`. -/
def leRank (a b : Movie) : Bool := decide (a.rank ≤ b.rank)

/-- Stable insertion of `x` into `l`: `x` goes after every element strictly
below it and before the first element not strictly below it, so elements
comparing equal keep their original relative order. -/
def insertLe (le : α → α → Bool) (x : α) : List α → List α
  | [] => [x]
  | y :: ys => if le y x && !(le x y) then y :: insertLe le x ys else x :: y :: ys

/-- Stable sort by the boolean relation `le`; models Python's stable
`list.sort`. -/
def isort (le : α → α → Bool) : List α → List α
  | [] => []
  | x :: xs => insertLe le x (isort le xs)

/-- The loop of `sort_entries`:
`enumerate(zip(entries[::-1], descriptions[::-1]), start=1)` with
`get_text().strip()` applied to both nodes. -/
def rankedMovies (entries descriptions : List String) : List Movie :=
  (List.enumFrom 1 (entries.reverse.zip descriptions.reverse)).map
    (fun p => { rank := p.1, title := pyStrip p.2.1, description := pyStrip p.2.2 })

/-- Python `sort_entries(entries, descriptions, sort_by)`. -/
def sort_entries (entries descriptions : List String) (sort_by : String) : List Movie :=
  if sort_by = "title" then isort leTitle (rankedMovies entries descriptions)
  else if sort_by = "rank" then isort leRank (rankedMovies entries descriptions)
  else rankedMovies entries descriptions

/-- The `--filter` step of `main`: `if args.filter:` is false both for `None`
and for the empty string, otherwise the titles are filtered by
case-insensitive substring containment.  Descriptions are not filtered. -/
def applyKeyword (filt : Option String) (entries : List String) : List String :=
  match filt with
  | none => entries
  | some k => if k = "" then entries else entries.filter (fun t => containsCI t k)

/-- The processing pipeline of `main` from the extracted node texts to the
final record list: filter the titles, then `sort_entries`. -/
def runPipeline (titles descriptions : List String) (filt : Option String)
    (sort_by : String) : List Movie :=
  sort_entries (applyKeyword filt titles) descriptions sort_by

/-- Python `check_for_updates`, with the fetch already performed: the digest
`content_hash` of the fetched bytes is given, and the cache-file state is
`cached_hash` (`none` when `os.path.exists(CACHE_FILE)` is false, otherwise
`some` of the file's entire content).  The result is the returned boolean
("changed") paired with the write action performed on the cache file
(`some h` when the code opens the file and writes `h`, `none` when the file
is left untouched). -/
def check_for_updates (cached_hash : Option String) (content_hash : String) :
    Bool × Option String :=
  match cached_hash with
  | some h => if h = content_hash then (false, none) else (true, some content_hash)
  | none => (true, some content_hash)

/-- The cache-file content after one invocation of `check_for_updates`: the
written digest if a write happened, the previous state otherwise. -/
def cacheAfter (cached_hash : Option String) (content_hash : String) : Option String :=
  match (check_for_updates cached_hash content_hash).2 with
  | some w => some w
  | none => cached_hash

/-- One record's txt output, as the loop in `save_file` writes it:
`f-string rank, then ") ", the title, a newline, "Description: ", the
description and a blank line`. -/
def movieLine (m : Movie) : String :=
  Nat.repr m.rank ++ ") " ++ m.title ++ "\nDescription: " ++ m.description ++ "\n\n"

/-- The full text produced by the txt branch of `save_file`: the
concatenation of the per-record writes, in order. -/
def txtContent : List Movie → String
  | [] => ""
  | m :: ms => movieLine m ++ txtContent ms

/-- A string is encodable in ISO-8859-1 exactly when every character's
codepoint is at most 255. -/
def latin1Encodable (s : String) : Bool :=
  s.data.all (fun c => c.toNat ≤ 255)

/-- The two exception kinds relevant to `save_file`'s txt branch: `IOError`
(`OSError`) from the file system, and `UnicodeEncodeError` from the codec —
the latter is a `ValueError` subclass, not an `IOError`. -/
inductive WriteError where
  | ioErr
  | encodingErr
deriving Repr, DecidableEq

/-- Writing the formatted text to a file opened with `encoding="ISO-8859-1"`:
the codec raises `UnicodeEncodeError` exactly when the text contains a
character above U+00FF (CPython codec semantics for the `open`/`write` the
txt branch performs). -/
def writeTxt (movies : List Movie) : Except WriteError Unit :=
  if latin1Encodable (txtContent movies) then Except.ok ()
  else Except.error WriteError.encodingErr

/-- How one run of `save_file` in txt mode terminates. -/
inductive SaveOutcome where
  | ok
  | exitSaveFailed
  | uncaught
deriving Repr, DecidableEq

/-- The `try/except IOError` wrapper of `save_file` in txt mode: an `IOError`
is caught and becomes the `sys.exit("Failed to save the file: ...")` path;
any other exception — in particular `UnicodeEncodeError` — propagates
uncaught. -/
def save_file_txt (movies : List Movie) : SaveOutcome :=
  match writeTxt movies with
  | Except.ok _ => SaveOutcome.ok
  | Except.error WriteError.ioErr => SaveOutcome.exitSaveFailed
  | Except.error WriteError.encodingErr => SaveOutcome.uncaught

/-- Quoting rule of the csv excel dialect with minimal quoting, as the
`csv.writer` behind `DictWriter` applies it: a field is quoted exactly when
it contains the delimiter, the quote character, or a character of the CRLF
line terminator. -/
def needsQuote (f : List Char) : Bool :=
  f.any (fun c => c = ',' || c = '"' || c = '\r' || c = '\n')

/-- Double every quote character (csv doublequote escaping). -/
def dquote : List Char → List Char
  | [] => []
  | c :: cs => if c = '"' then '"' :: '"' :: dquote cs else c :: dquote cs

/-- One serialized csv field. -/
def csvField (f : List Char) : List Char :=
  if needsQuote f then '"' :: (dquote f ++ ['"']) else f

/-- The serialized fields of one row, comma-joined. -/
def csvFields : List (List Char) → List Char
  | [] => []
  | [f] => csvField f
  | f :: fs => csvField f ++ ',' :: csvFields fs

/-- One csv row with its CRLF terminator.  A row consisting of a single
empty field is written as a quoted empty field (CPython's writer quotes it
so the row is not mistaken for a blank line). -/
def csvRow (r : List (List Char)) : List Char :=
  (if r = [[]] then ['"', '"'] else csvFields r) ++ ['\r', '\n']

/-- Concatenation of serialized rows: the whole csv file body. -/
def csvRows (rows : List (List (List Char))) : List Char :=
  (rows.map csvRow).flatten

/-- The row the `DictWriter` writes for one movie, in `fieldnames` order,
with the integer rank rendered by `str`. -/
def movieRow (m : Movie) : List (List Char) :=
  [(Nat.repr m.rank).data, m.title.data, m.description.data]

/-- The header row written by `writeheader()`: the three field names. -/
def csvHeader : List (List Char) :=
  [("rank" : String).data, ("title" : String).data, ("description" : String).data]

/-- The csv branch of `save_file`: the header row, then one row per record,
through the same quoting path. -/
def save_file_csv (movies : List Movie) : String :=
  String.mk (csvRows (csvHeader :: movies.map movieRow))

/-- Parser state: at the start of a field, inside an unquoted field, or
inside a quoted field. -/
inductive CsvSt where
  | startField
  | inField
  | inQuoted
deriving Repr, DecidableEq

/-- Modelled from the spec: "standard tabular quoting/escaping rules for
embedded delimiters" — the repository contains no reader, so the reparser is
a csv reader for the dialect the writer emits (comma delimiter, CRLF row
terminator, double-quote quoting, doubled quotes as escapes, blank line =
empty row, a field resuming after its closing quote appends, end of input
closes any pending row).  `field` and `row` accumulate the current field and
the current row. -/
def csvParseAux : CsvSt → List Char → List (List Char) → List Char → List (List (List Char))
  | CsvSt.startField, _, row, [] => if row.isEmpty then [] else [row ++ [[]]]
  | CsvSt.inField, field, row, [] => [row ++ [field]]
  | CsvSt.inQuoted, field, row, [] => [row ++ [field]]
  | CsvSt.startField, _, row, '"' :: cs => csvParseAux CsvSt.inQuoted [] row cs
  | CsvSt.startField, _, row, ',' :: cs => csvParseAux CsvSt.startField [] (row ++ [[]]) cs
  | CsvSt.startField, _, row, '\r' :: '\n' :: cs =>
    (if row.isEmpty then [] else row ++ [[]]) :: csvParseAux CsvSt.startField [] [] cs
  | CsvSt.startField, _, row, c :: cs => csvParseAux CsvSt.inField [c] row cs
  | CsvSt.inField, field, row, ',' :: cs => csvParseAux CsvSt.startField [] (row ++ [field]) cs
  | CsvSt.inField, field, row, '\r' :: '\n' :: cs =>
    (row ++ [field]) :: csvParseAux CsvSt.startField [] [] cs
  | CsvSt.inField, field, row, c :: cs => csvParseAux CsvSt.inField (field ++ [c]) row cs
  | CsvSt.inQuoted, field, row, '"' :: '"' :: cs =>
    csvParseAux CsvSt.inQuoted (field ++ ['"']) row cs
  | CsvSt.inQuoted, field, row, '"' :: cs => csvParseAux CsvSt.inField field row cs
  | CsvSt.inQuoted, field, row, c :: cs => csvParseAux CsvSt.inQuoted (field ++ [c]) row cs

/-- Reparse a csv text into its rows of fields. -/
def csvParseStr (s : String) : List (List (List Char)) :=
  csvParseAux CsvSt.startField [] [] s.data

/-! ### Properties of the stable sort -/

theorem insertLe_perm (le : α → α → Bool) (x : α) :
    ∀ l : List α, (insertLe le x l).Perm (x :: l)
  | [] => List.Perm.refl _
  | y :: ys => by
    by_cases hc : (le y x && !(le x y)) = true
    · simp only [insertLe, hc, if_true]
      exact ((insertLe_perm le x ys).cons y).trans (List.Perm.swap x y ys)
    · simp only [insertLe, hc, if_false]
      exact List.Perm.refl _

theorem isort_perm (le : α → α → Bool) : ∀ l : List α, (isort le l).Perm l
  | [] => List.Perm.refl _
  | x :: xs =>
    (insertLe_perm le x (isort le xs)).trans ((isort_perm le xs).cons x)

theorem mem_insertLe (le : α → α → Bool) (x a : α) (l : List α) :
    a ∈ insertLe le x l ↔ a = x ∨ a ∈ l := by
  rw [(insertLe_perm le x l).mem_iff, List.mem_cons]

theorem pairwise_insertLe (le : α → α → Bool)
    (htrans : ∀ a b c, le a b = true → le b c = true → le a c = true)
    (htotal : ∀ a b, le a b = true ∨ le b a = true) (x : α) :
    ∀ l : List α, l.Pairwise (fun a b => le a b = true) →
      (insertLe le x l).Pairwise (fun a b => le a b = true)
  | [], _ => by simp [insertLe]
  | y :: ys, h => by
    rw [List.pairwise_cons] at h
    obtain ⟨h1, h2⟩ := h
    by_cases hc : (le y x && !(le x y)) = true
    · rw [show insertLe le x (y :: ys) = y :: insertLe le x ys from by
        simp [insertLe, hc]]
      rw [List.pairwise_cons]
      refine ⟨?_, pairwise_insertLe le htrans htotal x ys h2⟩
      intro z hz
      rcases (mem_insertLe le x z ys).1 hz with hz | hz
      · rw [hz]
        have h' := hc
        rw [Bool.and_eq_true] at h'
        exact h'.1
      · exact h1 z hz
    · have hxy : le x y = true := by
        by_contra hne
        have hxyf : le x y = false := by
          revert hne; cases le x y <;> simp
        have hyx : le y x = true := by
          rcases htotal x y with h' | h'
          · exact absurd h' hne
          · exact h'
        exact hc (by rw [hyx, hxyf]; rfl)
      have hcond : (le y x && !(le x y)) = false := by
        rw [hxy]; cases le y x <;> rfl
      rw [show insertLe le x (y :: ys) = x :: y :: ys from by
        simp [insertLe, hcond]]
      rw [List.pairwise_cons]
      refine ⟨?_, List.pairwise_cons.2 ⟨h1, h2⟩⟩
      intro z hz
      rcases List.mem_cons.1 hz with hz | hz
      · rw [hz]; exact hxy
      · exact htrans x y z hxy (h1 z hz)

theorem sorted_isort (le : α → α → Bool)
    (htrans : ∀ a b c, le a b = true → le b c = true → le a c = true)
    (htotal : ∀ a b, le a b = true ∨ le b a = true) :
    ∀ l : List α, (isort le l).Pairwise (fun a b => le a b = true)
  | [] => List.Pairwise.nil
  | x :: xs =>
    pairwise_insertLe le htrans htotal x (isort le xs) (sorted_isort le htrans htotal xs)

theorem isort_of_sorted (le : α → α → Bool) :
    ∀ l : List α, l.Pairwise (fun a b => le a b = true) → isort le l = l
  | [], _ => rfl
  | x :: xs, h => by
    rw [List.pairwise_cons] at h
    obtain ⟨h1, h2⟩ := h
    show insertLe le x (isort le xs) = x :: xs
    rw [isort_of_sorted le xs h2]
    cases xs with
    | nil => rfl
    | cons y ys =>
      have hxy : le x y = true := h1 y (List.mem_cons_self y ys)
      simp [insertLe, hxy]

/-! ### The comparison keys -/

theorem lexLe_trans : ∀ l1 l2 l3 : List Char,
    lexLe l1 l2 = true → lexLe l2 l3 = true → lexLe l1 l3 = true
  | [], _, _, _, _ => by simp [lexLe]
  | a :: as, [], _, h1, _ => by simp [lexLe] at h1
  | _ :: _, _ :: _, [], _, h2 => by simp [lexLe] at h2
  | a :: as, b :: bs, c :: cs, h1, h2 => by
    simp only [lexLe] at h1 h2 ⊢
    by_cases hab : a.toNat < b.toNat
    · by_cases hbc : b.toNat < c.toNat
      · simp [show a.toNat < c.toNat from by omega]
      · by_cases hcb : c.toNat < b.toNat
        · simp [hbc, hcb] at h2
        · simp [show a.toNat < c.toNat from by omega]
    · by_cases hba : b.toNat < a.toNat
      · simp [hab, hba] at h1
      · simp only [hab, hba, if_false] at h1
        by_cases hbc : b.toNat < c.toNat
        · simp [show a.toNat < c.toNat from by omega]
        · by_cases hcb : c.toNat < b.toNat
          · simp [hbc, hcb] at h2
          · simp only [hbc, hcb, if_false] at h2
            have hac1 : ¬ a.toNat < c.toNat := by omega
            have hac2 : ¬ c.toNat < a.toNat := by omega
            simp only [hac1, hac2, if_false]
            exact lexLe_trans as bs cs h1 h2

theorem lexLe_total : ∀ l1 l2 : List Char, lexLe l1 l2 = true ∨ lexLe l2 l1 = true
  | [], _ => Or.inl (by simp [lexLe])
  | _ :: _, [] => Or.inr (by simp [lexLe])
  | a :: as, b :: bs => by
    simp only [lexLe]
    by_cases hab : a.toNat < b.toNat
    · left; rw [if_pos hab]
    · by_cases hba : b.toNat < a.toNat
      · right; rw [if_pos hba]
      · rcases lexLe_total as bs with h | h
        · left; rw [if_neg hab, if_neg hba]; exact h
        · right; rw [if_neg hba, if_neg hab]; exact h

theorem leTitle_trans (a b c : Movie) :
    leTitle a b = true → leTitle b c = true → leTitle a c = true :=
  lexLe_trans a.title.data b.title.data c.title.data

theorem leTitle_total (a b : Movie) : leTitle a b = true ∨ leTitle b a = true :=
  lexLe_total a.title.data b.title.data

theorem leRank_trans (a b c : Movie) :
    leRank a b = true → leRank b c = true → leRank a c = true := by
  simp only [leRank, decide_eq_true_eq]
  omega

theorem leRank_total (a b : Movie) : leRank a b = true ∨ leRank b a = true := by
  simp only [leRank, decide_eq_true_eq]
  omega

/-! ### Rank assignment -/

theorem ranked_map_rank (e d : List String) :
    (rankedMovies e d).map Movie.rank = List.range' 1 (min e.length d.length) := by
  unfold rankedMovies
  rw [List.map_map]
  have hcomp :
      (Movie.rank ∘ fun p : Nat × (String × String) =>
        Movie.mk p.1 (pyStrip p.2.1) (pyStrip p.2.2)) = Prod.fst := rfl
  rw [hcomp, List.enumFrom_map_fst, List.length_zip, List.length_reverse,
    List.length_reverse]

theorem ranked_length (e d : List String) :
    (rankedMovies e d).length = min e.length d.length := by
  unfold rankedMovies
  rw [List.length_map, List.enumFrom_length, List.length_zip, List.length_reverse,
    List.length_reverse]

theorem ranked_pairwise_rank (e d : List String) :
    (rankedMovies e d).Pairwise (fun a b => leRank a b = true) := by
  have h1 : ((rankedMovies e d).map Movie.rank).Pairwise (fun a b : Nat => a ≤ b) := by
    rw [ranked_map_rank]
    exact List.pairwise_le_range' 1 _
  rw [List.pairwise_map] at h1
  exact h1.imp (fun h => by simpa [leRank] using h)

theorem sort_entries_rank_eq (e d : List String) :
    sort_entries e d "rank" = rankedMovies e d := by
  rw [sort_entries, if_neg (by decide), if_pos rfl]
  exact isort_of_sorted leRank _ (ranked_pairwise_rank e d)

theorem sort_entries_title_eq (e d : List String) :
    sort_entries e d "title" = isort leTitle (rankedMovies e d) := by
  rw [sort_entries, if_pos rfl]

theorem ranked_mem_title (e d : List String) (m : Movie)
    (hm : m ∈ rankedMovies e d) : ∃ s ∈ e, m.title = pyStrip s := by
  unfold rankedMovies at hm
  rw [List.mem_map] at hm
  obtain ⟨p, hp, rfl⟩ := hm
  obtain ⟨i, q, rfl⟩ : ∃ i q, p = (i, q) := ⟨p.1, p.2, rfl⟩
  obtain ⟨t, s, rfl⟩ : ∃ t s, q = (t, s) := ⟨q.1, q.2, rfl⟩
  have hq : (t, s) ∈ e.reverse.zip d.reverse := by
    rw [List.enumFrom_eq_zip_range'] at hp
    exact (List.of_mem_zip hp).2
  have ht : t ∈ e.reverse := (List.of_mem_zip hq).1
  exact ⟨t, List.mem_reverse.1 ht, rfl⟩

theorem hasSub_nil (l : List Char) : hasSub [] l = true := by
  cases l <;> simp [hasSub, List.isPrefixOf]

theorem containsCI_empty (s : String) : containsCI s "" = true :=
  hasSub_nil _

theorem sort_rank_ranks (e d : List String) :
    (sort_entries e d "rank").map Movie.rank
      = List.range' 1 (sort_entries e d "rank").length := by
  rw [sort_entries_rank_eq, ranked_map_rank, ranked_length]

theorem cacheAfter_eq_some (st : Option String) (h : String) :
    cacheAfter st h = some h := by
  cases st with
  | none => rfl
  | some x =>
    by_cases hx : x = h
    · subst hx; simp [cacheAfter, check_for_updates]
    · simp [cacheAfter, check_for_updates, hx]

/-! ### The claims -/

/-- Claim C1 (counterexample): the claim says the filtered run on titles
`["C","B","A"]`, descriptions `["descC","descB","descA"]`, keyword `"b"`
produces `{rank:1, title:"B", description:"descB"}`; the code does not. -/
theorem c1_counterexample :
    ¬ runPipeline ["C", "B", "A"] ["descC", "descB", "descA"] (some "b") "rank"
        = [⟨1, "B", "descB"⟩] := by
  decide

/-- Claim C1 (amended): with filter keyword `"b"` the run produces exactly one
record, `{rank:1, title:"B", description:"descA"}` — only the title list is
filtered, the description list stays full, so after the reversal the
surviving title `"B"` is zipped with the first reversed description
`"descA"`. -/
theorem c1_filter_scenario :
    runPipeline ["C", "B", "A"] ["descC", "descB", "descA"] (some "b") "rank"
      = [⟨1, "B", "descA"⟩] := by
  decide

/-- Claim C2: the keyword filter keeps, in order, exactly the titles that
contain the keyword case-insensitively (it is applied to the original title
sequence before reversal and pairing); the resulting records carry the
contiguous ranks `1..n`, and every surviving record's title comes from a
matching original title. -/
theorem c2_filter_exact (titles descriptions : List String) (k : String) :
    (applyKeyword (some k) titles).Sublist titles
    ∧ (∀ s, s ∈ applyKeyword (some k) titles ↔ s ∈ titles ∧ containsCI s k = true)
    ∧ (sort_entries (applyKeyword (some k) titles) descriptions "rank").map Movie.rank
        = List.range' 1
            ((sort_entries (applyKeyword (some k) titles) descriptions "rank").length)
    ∧ ∀ m ∈ sort_entries (applyKeyword (some k) titles) descriptions "rank",
        ∃ s ∈ titles, containsCI s k = true ∧ m.title = pyStrip s := by
  have hmem : ∀ m ∈ sort_entries (applyKeyword (some k) titles) descriptions "rank",
      ∃ s ∈ applyKeyword (some k) titles, m.title = pyStrip s := by
    intro m hm
    rw [sort_entries_rank_eq] at hm
    exact ranked_mem_title _ _ m hm
  by_cases hk : k = ""
  · subst hk
    have happ : applyKeyword (some "") titles = titles := by simp [applyKeyword]
    rw [happ] at hmem ⊢
    refine ⟨List.Sublist.refl _, ?_, sort_rank_ranks _ _, ?_⟩
    · intro s; simp [containsCI_empty]
    · intro m hm
      obtain ⟨s, hs, ht⟩ := hmem m hm
      exact ⟨s, hs, containsCI_empty s, ht⟩
  · have happ : applyKeyword (some k) titles
        = titles.filter (fun t => containsCI t k) := by
      simp [applyKeyword, hk]
    rw [happ] at hmem ⊢
    refine ⟨List.filter_sublist _, ?_, sort_rank_ranks _ _, ?_⟩
    · intro s; exact List.mem_filter
    · intro m hm
      obtain ⟨s, hs, ht⟩ := hmem m hm
      rw [List.mem_filter] at hs
      exact ⟨s, hs.1, hs.2, ht⟩

/-- Claim C2 witness: `c2_filter_exact` evaluated on the concrete scenario
input, discharging the membership hypotheses of its last conjunct. -/
theorem c2_filter_exact_witness :
    ("B" ∈ applyKeyword (some "b") ["C", "B", "A"]
        ↔ "B" ∈ ["C", "B", "A"] ∧ containsCI "B" "b" = true)
    ∧ ((⟨1, "B", "descA"⟩ : Movie)
          ∈ sort_entries (applyKeyword (some "b") ["C", "B", "A"])
              ["descC", "descB", "descA"] "rank"
        ∧ ∃ s ∈ ["C", "B", "A"], containsCI s "b" = true
            ∧ (⟨1, "B", "descA"⟩ : Movie).title = pyStrip s) := by
  have h := c2_filter_exact ["C", "B", "A"] ["descC", "descB", "descA"] "b"
  exact ⟨h.2.1 "B", by decide, h.2.2.2 ⟨1, "B", "descA"⟩ (by decide)⟩

/-- Claim C3: absent filtering, the processed list has exactly
`min (number of titles) (number of descriptions)` records (zip semantics),
and the assigned ranks are the contiguous sequence `1..min`. -/
theorem c3_zip_ranks (titles descriptions : List String) :
    (sort_entries titles descriptions "rank").length
        = min titles.length descriptions.length
    ∧ (sort_entries titles descriptions "rank").map Movie.rank
        = List.range' 1 (min titles.length descriptions.length) := by
  rw [sort_entries_rank_eq]
  exact ⟨ranked_length _ _, ranked_map_rank _ _⟩

/-- Claim C4: the unfiltered rank-sorted run on page-order titles
`["C","B","A"]` with descriptions `["descC","descB","descA"]` yields the three
records in ascending rank order with matching descriptions. -/
theorem c4_rank_scenario :
    runPipeline ["C", "B", "A"] ["descC", "descB", "descA"] none "rank"
      = [⟨1, "A", "descA"⟩, ⟨2, "B", "descB"⟩, ⟨3, "C", "descC"⟩] := by
  decide

/-- Claim C5: the change detector, given the digest of the fetched bytes and
the cache-file state: no cache file means "write and report changed"; an
equal stored digest means "report unchanged" with no write; a different
stored digest means "overwrite and report changed".  Consequently a second
invocation over identical raw bytes (hence the identical digest of any hash
function) reports unchanged, and bytes with a different digest make it report
changed with the stored fingerprint updated. -/
theorem c5_change_detector (st : Option String) (hash : List Nat → String)
    (b b' : List Nat) (c d : String) :
    check_for_updates none d = (true, some d)
    ∧ check_for_updates (some d) d = (false, none)
    ∧ (c ≠ d → check_for_updates (some c) d = (true, some d))
    ∧ check_for_updates (cacheAfter st (hash b)) (hash b) = (false, none)
    ∧ (hash b ≠ hash b' →
        check_for_updates (cacheAfter st (hash b)) (hash b') = (true, some (hash b'))
        ∧ cacheAfter (cacheAfter st (hash b)) (hash b') = some (hash b')) := by
  have h2 : ∀ e : String, check_for_updates (some e) e = (false, none) := by
    intro e; simp [check_for_updates]
  have h3 : ∀ e f : String, e ≠ f → check_for_updates (some e) f = (true, some f) := by
    intro e f hef; simp [check_for_updates, hef]
  refine ⟨rfl, h2 d, fun hcd => h3 c d hcd, ?_, fun hne => ?_⟩
  · rw [cacheAfter_eq_some]; exact h2 _
  · rw [cacheAfter_eq_some]
    exact ⟨h3 _ _ hne, by rw [cacheAfter_eq_some]⟩

/-- Claim C5 witness: the hypothesis-bearing parts of `c5_change_detector`
evaluated at concrete digests. -/
theorem c5_change_detector_witness :
    check_for_updates (some "x") "y" = (true, some "y")
    ∧ check_for_updates (cacheAfter none "h0") "h1" = (true, some "h1")
    ∧ cacheAfter (cacheAfter none "h0") "h1" = some "h1" := by
  have h := c5_change_detector none (fun l => if l.isEmpty then "h0" else "h1")
    [] [0] "x" "y"
  have hne : (fun l : List Nat => if l.isEmpty then "h0" else "h1") []
      ≠ (fun l : List Nat => if l.isEmpty then "h0" else "h1") [0] := by decide
  exact ⟨h.2.2.1 (by decide), (h.2.2.2.2 hne).1, (h.2.2.2.2 hne).2⟩

/-- Claim C6: sorting by title yields titles in non-decreasing
codepoint-lexicographic order; sorting by rank on a list whose ranks are
already ascending returns the very same sequence, so rank-sorting is
idempotent on the processor's output. -/
theorem c6_sort_properties :
    (∀ l : List Movie, (isort leTitle l).Pairwise (fun a b => leTitle a b = true))
    ∧ (∀ l : List Movie, l.Pairwise (fun a b => leRank a b = true) → isort leRank l = l)
    ∧ ∀ titles descriptions : List String,
        isort leRank (sort_entries titles descriptions "rank")
          = sort_entries titles descriptions "rank" := by
  refine ⟨fun l => sorted_isort leTitle leTitle_trans leTitle_total l,
    fun l h => isort_of_sorted leRank l h, fun t d => ?_⟩
  rw [sort_entries_rank_eq]
  exact isort_of_sorted leRank _ (ranked_pairwise_rank t d)

/-- Claim C6 witness: the rank-sort identity of `c6_sort_properties` applied
to a concrete already-rank-sorted list. -/
theorem c6_sort_properties_witness :
    List.Pairwise (fun a b => leRank a b = true)
        [(⟨1, "a", "x"⟩ : Movie), ⟨2, "b", "y"⟩]
    ∧ isort leRank [(⟨1, "a", "x"⟩ : Movie), ⟨2, "b", "y"⟩]
        = [(⟨1, "a", "x"⟩ : Movie), ⟨2, "b", "y"⟩] :=
  ⟨by decide, c6_sort_properties.2.1 _ (by decide)⟩

/-- Claim C8: when the stored fingerprint equals the fresh digest no write is
performed and the cache content is unchanged; the file is written only when
the digests differ, or created when absent. -/
theorem c8_cache_frame (c d : String) :
    (c = d → (check_for_updates (some c) d).2 = none ∧ cacheAfter (some c) d = some c)
    ∧ (c ≠ d → (check_for_updates (some c) d).2 = some d)
    ∧ (check_for_updates none d).2 = some d := by
  refine ⟨fun h => ?_, fun h => ?_, rfl⟩
  · subst h; simp [check_for_updates, cacheAfter]
  · simp [check_for_updates, h]

/-- Claim C8 witness: `c8_cache_frame` at concrete digests. -/
theorem c8_cache_frame_witness :
    ((check_for_updates (some "h") "h").2 = none ∧ cacheAfter (some "h") "h" = some "h")
    ∧ (check_for_updates (some "g") "h").2 = some "h" := by
  have h := c8_cache_frame "h" "h"
  have h2 := c8_cache_frame "g" "h"
  exact ⟨h.1 rfl, h2.2.1 (by decide)⟩

/-- Claim C9: sorting by title only permutes the fully built records — the
rank fields assigned before the sort travel with their records — and on a
concrete input the title-sorted ranks are not in ascending positional
order. -/
theorem c9_title_sort_permutes :
    (∀ titles descriptions : List String,
        (sort_entries titles descriptions "title").Perm
          (rankedMovies titles descriptions))
    ∧ sort_entries ["A", "B"] ["x", "y"] "title" = [⟨2, "A", "x"⟩, ⟨1, "B", "y"⟩]
    ∧ ¬ (sort_entries ["A", "B"] ["x", "y"] "title").Pairwise
          (fun a b => leRank a b = true) := by
  refine ⟨fun t d => ?_, by decide, by decide⟩
  rw [sort_entries_title_eq]
  exact isort_perm leTitle _

/-! ### Parsing the writer's output -/

theorem parse_start_quote (row : List (List Char)) (cs : List Char) :
    csvParseAux CsvSt.startField [] row ('"' :: cs)
      = csvParseAux CsvSt.inQuoted [] row cs := rfl

theorem parse_start_comma (row : List (List Char)) (cs : List Char) :
    csvParseAux CsvSt.startField [] row (',' :: cs)
      = csvParseAux CsvSt.startField [] (row ++ [[]]) cs := rfl

theorem parse_start_crlf (row : List (List Char)) (cs : List Char) :
    csvParseAux CsvSt.startField [] row ('\r' :: '\n' :: cs)
      = (if row.isEmpty then [] else row ++ [[]])
          :: csvParseAux CsvSt.startField [] [] cs := rfl

theorem parse_start_other (row : List (List Char)) (c : Char) (cs : List Char)
    (h1 : ¬ c = '"') (h2 : ¬ c = ',') (h3 : ¬ c = '\r') :
    csvParseAux CsvSt.startField [] row (c :: cs)
      = csvParseAux CsvSt.inField [c] row cs := by
  simp [csvParseAux, h1, h2, h3]

theorem parse_in_comma (field : List Char) (row : List (List Char)) (cs : List Char) :
    csvParseAux CsvSt.inField field row (',' :: cs)
      = csvParseAux CsvSt.startField [] (row ++ [field]) cs := rfl

theorem parse_in_crlf (field : List Char) (row : List (List Char)) (cs : List Char) :
    csvParseAux CsvSt.inField field row ('\r' :: '\n' :: cs)
      = (row ++ [field]) :: csvParseAux CsvSt.startField [] [] cs := rfl

theorem parse_in_other (field : List Char) (row : List (List Char)) (c : Char)
    (cs : List Char) (h1 : ¬ c = ',') (h2 : ¬ c = '\r') :
    csvParseAux CsvSt.inField field row (c :: cs)
      = csvParseAux CsvSt.inField (field ++ [c]) row cs := by
  simp [csvParseAux, h1, h2]

theorem parse_q_qq (field : List Char) (row : List (List Char)) (cs : List Char) :
    csvParseAux CsvSt.inQuoted field row ('"' :: '"' :: cs)
      = csvParseAux CsvSt.inQuoted (field ++ ['"']) row cs := rfl

theorem parse_q_end (field : List Char) (row : List (List Char)) (cs : List Char)
    (h : cs.head? ≠ some '"') :
    csvParseAux CsvSt.inQuoted field row ('"' :: cs)
      = csvParseAux CsvSt.inField field row cs := by
  cases cs with
  | nil => rfl
  | cons c' cs'' =>
    have hc : ¬ c' = '"' := fun he => h (by rw [he]; rfl)
    simp [csvParseAux, hc]

theorem parse_q_other (field : List Char) (row : List (List Char)) (c : Char)
    (cs : List Char) (h : ¬ c = '"') :
    csvParseAux CsvSt.inQuoted field row (c :: cs)
      = csvParseAux CsvSt.inQuoted (field ++ [c]) row cs := by
  simp [csvParseAux, h]

theorem parse_quoted_run : ∀ (f acc : List Char) (row : List (List Char))
    (rest : List Char), rest.head? ≠ some '"' →
    csvParseAux CsvSt.inQuoted acc row (dquote f ++ '"' :: rest)
      = csvParseAux CsvSt.inField (acc ++ f) row rest
  | [], acc, row, rest, h => by
    rw [show dquote [] = [] from rfl, List.nil_append,
      parse_q_end acc row rest h, List.append_nil]
  | c :: f', acc, row, rest, h => by
    by_cases hc : c = '"'
    · subst hc
      rw [show dquote ('"' :: f') = '"' :: '"' :: dquote f' from by simp [dquote]]
      rw [show ('"' :: '"' :: dquote f') ++ '"' :: rest
          = '"' :: '"' :: (dquote f' ++ '"' :: rest) from rfl]
      rw [parse_q_qq, parse_quoted_run f' (acc ++ ['"']) row rest h]
      simp
    · rw [show dquote (c :: f') = c :: dquote f' from by simp [dquote, hc]]
      rw [show (c :: dquote f') ++ '"' :: rest
          = c :: (dquote f' ++ '"' :: rest) from rfl]
      rw [parse_q_other acc row c _ hc, parse_quoted_run f' (acc ++ [c]) row rest h]
      simp

theorem parse_infield_run : ∀ (f : List Char), (∀ c ∈ f, ¬ c = ',' ∧ ¬ c = '\r') →
    ∀ (acc : List Char) (row : List (List Char)) (rest : List Char),
    csvParseAux CsvSt.inField acc row (f ++ rest)
      = csvParseAux CsvSt.inField (acc ++ f) row rest
  | [], _ => by intro acc row rest; simp
  | c :: f', h => by
    intro acc row rest
    have hc := h c (List.mem_cons_self c f')
    rw [show (c :: f') ++ rest = c :: (f' ++ rest) from rfl]
    rw [parse_in_other acc row c _ hc.1 hc.2]
    rw [parse_infield_run f' (fun x hx => h x (List.mem_cons_of_mem c hx))
      (acc ++ [c]) row rest]
    simp

theorem needsQuote_false_chars {f : List Char} (h : needsQuote f = false) :
    ∀ c ∈ f, ¬ c = ',' ∧ ¬ c = '"' ∧ ¬ c = '\r' ∧ ¬ c = '\n' := by
  intro c hc
  have hb : (decide (c = ',') || decide (c = '"') || decide (c = '\r')
      || decide (c = '\n')) = false := by
    cases hbv : (decide (c = ',') || decide (c = '"') || decide (c = '\r')
        || decide (c = '\n'))
    · rfl
    · exfalso
      have ht : needsQuote f = true := List.any_eq_true.2 ⟨c, hc, hbv⟩
      rw [ht] at h
      cases h
  simp only [Bool.or_eq_false_iff, decide_eq_false_iff_not] at hb
  exact ⟨hb.1.1.1, hb.1.1.2, hb.1.2, hb.2⟩

theorem parse_field_comma (f : List Char) (row : List (List Char)) (rest : List Char) :
    csvParseAux CsvSt.startField [] row (csvField f ++ ',' :: rest)
      = csvParseAux CsvSt.startField [] (row ++ [f]) rest := by
  by_cases hq : needsQuote f = true
  · rw [show csvField f = '"' :: (dquote f ++ ['"']) from by simp [csvField, hq]]
    simp only [List.cons_append, List.append_assoc, List.nil_append]
    rw [parse_start_quote, parse_quoted_run f [] row (',' :: rest) (by simp),
      List.nil_append, parse_in_comma]
  · have hq' : needsQuote f = false := by
      cases hv : needsQuote f
      · rfl
      · exact absurd hv hq
    have hchars := needsQuote_false_chars hq'
    rw [show csvField f = f from by simp [csvField, hq']]
    cases f with
    | nil => rw [List.nil_append, parse_start_comma]
    | cons c f'' =>
      have hc := hchars c (List.mem_cons_self c f'')
      rw [show (c :: f'') ++ ',' :: rest = c :: (f'' ++ ',' :: rest) from rfl]
      rw [parse_start_other row c _ hc.2.1 hc.1 hc.2.2.1]
      rw [parse_infield_run f''
        (fun x hx => ⟨(hchars x (List.mem_cons_of_mem c hx)).1,
          (hchars x (List.mem_cons_of_mem c hx)).2.2.1⟩) [c] row (',' :: rest)]
      rw [parse_in_comma]
      rfl

theorem parse_field_crlf (f : List Char) (row : List (List Char)) (rest : List Char)
    (hrow : row = [] → ¬ f = []) :
    csvParseAux CsvSt.startField [] row (csvField f ++ '\r' :: '\n' :: rest)
      = (row ++ [f]) :: csvParseAux CsvSt.startField [] [] rest := by
  by_cases hq : needsQuote f = true
  · rw [show csvField f = '"' :: (dquote f ++ ['"']) from by simp [csvField, hq]]
    simp only [List.cons_append, List.append_assoc, List.nil_append]
    rw [parse_start_quote, parse_quoted_run f [] row ('\r' :: '\n' :: rest) (by simp),
      List.nil_append, parse_in_crlf]
  · have hq' : needsQuote f = false := by
      cases hv : needsQuote f
      · rfl
      · exact absurd hv hq
    have hchars := needsQuote_false_chars hq'
    rw [show csvField f = f from by simp [csvField, hq']]
    cases f with
    | nil =>
      have hrow' : ¬ row = [] := fun hr => (hrow hr) rfl
      have hemp : row.isEmpty = false := by
        cases row
        · exact absurd rfl hrow'
        · rfl
      rw [List.nil_append, parse_start_crlf, hemp]
      simp
    | cons c f'' =>
      have hc := hchars c (List.mem_cons_self c f'')
      rw [show (c :: f'') ++ '\r' :: '\n' :: rest
          = c :: (f'' ++ '\r' :: '\n' :: rest) from rfl]
      rw [parse_start_other row c _ hc.2.1 hc.1 hc.2.2.1]
      rw [parse_infield_run f''
        (fun x hx => ⟨(hchars x (List.mem_cons_of_mem c hx)).1,
          (hchars x (List.mem_cons_of_mem c hx)).2.2.1⟩) [c] row ('\r' :: '\n' :: rest)]
      rw [parse_in_crlf]
      rfl

theorem fields_run : ∀ (fs : List (List Char)) (row : List (List Char)) (rest : List Char),
    (row = [] → ¬ fs = [[]]) → ¬ fs = [] →
    csvParseAux CsvSt.startField [] row (csvFields fs ++ '\r' :: '\n' :: rest)
      = (row ++ fs) :: csvParseAux CsvSt.startField [] [] rest
  | [], _, _, _, hne => absurd rfl hne
  | [f], row, rest, h, _ => by
    have hf : row = [] → ¬ f = [] := fun hr hfe => h hr (by rw [hfe])
    rw [show csvFields [f] = csvField f from rfl]
    exact parse_field_crlf f row rest hf
  | f :: g :: gs, row, rest, _, _ => by
    rw [show csvFields (f :: g :: gs) = csvField f ++ ',' :: csvFields (g :: gs) from rfl]
    rw [List.append_assoc]
    rw [show (',' :: csvFields (g :: gs)) ++ '\r' :: '\n' :: rest
        = ',' :: (csvFields (g :: gs) ++ '\r' :: '\n' :: rest) from rfl]
    rw [parse_field_comma f row _]
    rw [fields_run (g :: gs) (row ++ [f]) rest (by simp) (by simp)]
    simp

theorem parse_row (r : List (List Char)) (rest : List Char) :
    csvParseAux CsvSt.startField [] [] (csvRow r ++ rest)
      = r :: csvParseAux CsvSt.startField [] [] rest := by
  by_cases hsp : r = [[]]
  · subst hsp
    rw [show csvRow [[]] ++ rest = '"' :: '"' :: '\r' :: '\n' :: rest from rfl]
    rw [parse_start_quote, parse_q_end [] [] ('\r' :: '\n' :: rest) (by simp),
      parse_in_crlf]
    rfl
  · by_cases hnil : r = []
    · subst hnil
      rw [show csvRow [] ++ rest = '\r' :: '\n' :: rest from rfl]
      rw [parse_start_crlf]
      rfl
    · rw [show csvRow r = csvFields r ++ ['\r', '\n'] from by simp [csvRow, hsp]]
      rw [List.append_assoc]
      rw [show (['\r', '\n'] : List Char) ++ rest = '\r' :: '\n' :: rest from rfl]
      rw [fields_run r [] rest (fun _ => hsp) hnil]
      rfl

theorem parse_rows : ∀ rows : List (List (List Char)),
    csvParseAux CsvSt.startField [] [] (csvRows rows) = rows
  | [] => rfl
  | r :: rows' => by
    rw [show csvRows (r :: rows') = csvRow r ++ csvRows rows' from by simp [csvRows]]
    rw [parse_row r (csvRows rows'), parse_rows rows']

theorem mem_txtContent (m : Movie) (c : Char)
    (hc : c ∈ m.title.data ∨ c ∈ m.description.data) :
    ∀ movies : List Movie, m ∈ movies → c ∈ (txtContent movies).data
  | [], hm => absurd hm (List.not_mem_nil m)
  | m' :: ms, hm => by
    rw [show txtContent (m' :: ms) = movieLine m' ++ txtContent ms from rfl,
      String.data_append]
    rcases List.mem_cons.1 hm with rfl | hm'
    · refine List.mem_append.2 (Or.inl ?_)
      unfold movieLine
      simp only [String.data_append, List.mem_append]
      tauto
    · exact List.mem_append.2 (Or.inr (mem_txtContent m c hc ms hm'))

/-- Claim C10: if some record's title or description contains a character
outside the Latin-1 range, the txt save raises an encoding error that is not
an `IOError`: the run does not take the guarded "Failed to save the file"
termination path but propagates an uncaught exception. -/
theorem c10_txt_encoding (movies : List Movie) (m : Movie) (hm : m ∈ movies)
    (c : Char) (hc : c ∈ m.title.data ∨ c ∈ m.description.data)
    (hbig : 255 < c.toNat) :
    save_file_txt movies = SaveOutcome.uncaught
    ∧ save_file_txt movies ≠ SaveOutcome.exitSaveFailed := by
  have hmem : c ∈ (txtContent movies).data := mem_txtContent m c hc movies hm
  have hnot : ¬ latin1Encodable (txtContent movies) = true := by
    intro hall
    have h' := List.all_eq_true.1 hall c hmem
    simp only [decide_eq_true_eq] at h'
    omega
  have hfalse : latin1Encodable (txtContent movies) = false := by
    cases h' : latin1Encodable (txtContent movies)
    · rfl
    · exact absurd h' hnot
  have houtcome : save_file_txt movies = SaveOutcome.uncaught := by
    unfold save_file_txt writeTxt
    rw [hfalse]
    rfl
  exact ⟨houtcome, by rw [houtcome]; decide⟩

/-- Claim C10 witness: a single record whose title holds a character above
U+00FF makes the txt save end in the uncaught-exception outcome. -/
theorem c10_txt_encoding_witness :
    ((⟨1, "α", "d"⟩ : Movie) ∈ [(⟨1, "α", "d"⟩ : Movie)])
    ∧ ('α' ∈ ("α" : String).data ∨ 'α' ∈ ("d" : String).data)
    ∧ 255 < 'α'.toNat
    ∧ save_file_txt [(⟨1, "α", "d"⟩ : Movie)] = SaveOutcome.uncaught :=
  ⟨by decide, by decide, by decide,
    (c10_txt_encoding [⟨1, "α", "d"⟩] ⟨1, "α", "d"⟩ (by decide) 'α' (by decide)
      (by decide)).1⟩

/-- Claim C7: serializing a record list to the csv format — the
`rank,title,description` header row, then one row per record with standard
quoting for embedded delimiters — and reparsing the produced text yields
exactly the same `(rank, title, description)` triples field-for-field (the
integer rank in its decimal rendering), for every record list. -/
theorem c7_csv_roundtrip (movies : List Movie) :
    csvParseStr (save_file_csv movies) = csvHeader :: movies.map movieRow := by
  show csvParseAux CsvSt.startField [] []
    (csvRows (csvHeader :: movies.map movieRow)) = _
  exact parse_rows _

end Scraper
